import Mathlib

set_option linter.unusedVariables false

/-!
Shallow embedding of the stochastic light-transport core of the renderer:
the PDF module (pdf.h), the light-list sampling routines (hittable_list.h)
and the four recursive integrator variants together with the per-pixel
stratified accumulation of `camera::render` (camera.h).

Modelling conventions:
* `double` values are modelled as exact rationals `ℚ`.
* The global RNG (`random_double`, uniform in [0,1)) is modelled by explicit
  draw streams `ℕ → ℚ` handed to each consumer; integrators receive one fresh
  stream per recursion level (`rnd depth`), which is faithful to a single
  realization of the random process because at most one randomness-consuming
  recursive call happens per level.
* Vector arithmetic (vec3.h) is an external collaborator of the core (spec §1);
  its componentwise operations are reproduced directly.
* Polymorphic `pdf` / `material` / `hittable` interfaces become structures of
  functions; scene-dependent behaviour stays fully abstract.
-/

/-- Rational 3-vector standing for the source's `vec3` / `point3` / `color`. -/
structure vec3 where
  x : ℚ
  y : ℚ
  z : ℚ
deriving DecidableEq, Repr

instance : Zero vec3 := ⟨⟨0, 0, 0⟩⟩

instance : Add vec3 := ⟨fun a b => ⟨a.x + b.x, a.y + b.y, a.z + b.z⟩⟩

/-- Componentwise product, the source's `vec3 * vec3` used for color filtering. -/
instance : Mul vec3 := ⟨fun a b => ⟨a.x * b.x, a.y * b.y, a.z * b.z⟩⟩

/-- Scalar multiple, the source's `double * vec3`. -/
def vec3.smul (t : ℚ) (a : vec3) : vec3 := ⟨t * a.x, t * a.y, t * a.z⟩

/-- Componentwise division by a scalar, the source's `vec3 / double`. -/
instance : HDiv vec3 ℚ vec3 := ⟨fun a t => ⟨a.x / t, a.y / t, a.z / t⟩⟩

/-- Dot product of `vec3.h`. -/
def vec3.dot (a b : vec3) : ℚ := a.x * b.x + a.y * b.y + a.z * b.z

/-- Squared length of `vec3.h`. -/
def vec3.length_squared (a : vec3) : ℚ := a.x * a.x + a.y * a.y + a.z * a.z

/-- Ray with origin, direction and a motion-blur time, the source's `ray`. -/
structure ray where
  orig : vec3
  dir : vec3
  tm : ℚ
deriving DecidableEq, Repr

/-- Drop the first draw of a random stream (that draw has been consumed). -/
def tailStream (u : ℕ → ℚ) : ℕ → ℚ := fun n => u (n + 1)

/-- Interface of the abstract `pdf` base class: `value` gives the density for a
direction, `generate` draws a direction from a stream of uniform [0,1) draws. -/
structure pdf where
  value : vec3 → ℚ
  generate : (ℕ → ℚ) → vec3

/-- Parametric interval of the scene query, with `⊤` standing for `infinity`. -/
structure interval where
  tmin : ℚ
  tmax : WithTop ℚ
deriving DecidableEq

/-- Interval `interval(0.001, infinity)` used by every integrator scene query. -/
def hit_interval : interval := ⟨1/1000, ⊤⟩

/-- Geometric part of the source's `hit_record`; the material pointer `mat` is
returned alongside by `hittable.hit` (see below). -/
structure hit_record where
  p : vec3
  normal : vec3
  t : ℚ
  u : ℚ
  v : ℚ
  front_face : Bool

/-- Result of `material::scatter`, as in material.h: attenuation plus either a
sampling pdf or a `skip_pdf` continuation ray. -/
structure scatter_record where
  attenuation : vec3
  pdf_ptr : pdf
  skip_pdf : Bool
  skip_pdf_ray : ray

/-- Interface of the abstract `material` class (material.h, external collaborator):
`scatter` returning `none` models the C++ `scatter` returning `false`. -/
structure material where
  emitted : ray → hit_record → ℚ → ℚ → vec3 → vec3
  scatter : ray → hit_record → Option scatter_record
  scattering_pdf : ray → hit_record → ray → ℚ

/-- Interface of the abstract `hittable` class: `hit` returns the hit record and
the material at the hit (the C++ record's `mat` pointer), or `none` on a miss;
`pdf_value` and `random` are the light-importance routines. `random`'s draws are
folded into the chosen function (one realization). -/
structure hittable where
  hit : ray → interval → Option (hit_record × material)
  pdf_value : vec3 → vec3 → ℚ
  random : vec3 → vec3

/-- Translation of `hittable_pdf` (pdf.h): delegates to the wrapped collection's
importance routines; `generate` consumes no draws in this model because the
collection's `random` is already one fixed realization. -/
def hittable_pdf (objects : hittable) (origin : vec3) : pdf where
  value direction := objects.pdf_value origin direction
  generate _ := objects.random origin

/-- Translation of `mixture_pdf` (pdf.h): 50/50 convex combination of densities;
`generate` uses one uniform draw as the coin and defers to a component. -/
def mixture_pdf (p0 p1 : pdf) : pdf where
  value direction := 1/2 * p0.value direction + 1/2 * p1.value direction
  generate u :=
    if u 0 < 1/2 then p0.generate (tailStream u)
    else p1.generate (tailStream u)

/-- Translation of `camera::ray_color_1` (camera.h, BSDF sampling). The depth
argument models the C++ `int depth` with `depth <= 0` collapsed to `0`; the
stream `rnd depth` supplies the uniform draws consumed at the current level. -/
def ray_color_1 (background : vec3) (world lights : hittable) (rnd : ℕ → ℕ → ℚ) :
    ℕ → ray → vec3
  | 0, _ => ⟨0, 0, 0⟩
  | d + 1, r =>
    match world.hit r hit_interval with
    | none => background
    | some (rec', mat) =>
      let color_from_emission := mat.emitted r rec' rec'.u rec'.v rec'.p
      match mat.scatter r rec' with
      | none => color_from_emission
      | some srec =>
        if srec.skip_pdf then
          srec.attenuation * ray_color_1 background world lights rnd d srec.skip_pdf_ray
        else
          let dir := srec.pdf_ptr.generate (rnd (d + 1))
          if dir.length_squared < 1/10000 then
            color_from_emission
          else
            let scattered : ray := ⟨rec'.p, dir, r.tm⟩
            let pdf_val := srec.pdf_ptr.value scattered.dir
            let scat_pdf := mat.scattering_pdf r rec' scattered
            let sample_color := ray_color_1 background world lights rnd d scattered
            color_from_emission + (vec3.smul scat_pdf srec.attenuation * sample_color) / pdf_val

/-- Translation of `camera::ray_color_2` (camera.h, mixture sampling): the
scatter direction is drawn from the 50/50 mixture of the light pdf and the
material pdf; note there is no near-zero-direction guard in this variant. -/
def ray_color_2 (background : vec3) (world lights : hittable) (rnd : ℕ → ℕ → ℚ) :
    ℕ → ray → vec3
  | 0, _ => ⟨0, 0, 0⟩
  | d + 1, r =>
    match world.hit r hit_interval with
    | none => background
    | some (rec', mat) =>
      let color_from_emission := mat.emitted r rec' rec'.u rec'.v rec'.p
      match mat.scatter r rec' with
      | none => color_from_emission
      | some srec =>
        if srec.skip_pdf then
          srec.attenuation * ray_color_2 background world lights rnd d srec.skip_pdf_ray
        else
          let light_ptr := hittable_pdf lights rec'.p
          let p := mixture_pdf light_ptr srec.pdf_ptr
          let scattered : ray := ⟨rec'.p, p.generate (rnd (d + 1)), r.tm⟩
          let pdf_val := p.value scattered.dir
          let scat_pdf := mat.scattering_pdf r rec' scattered
          let sample_color := ray_color_2 background world lights rnd d scattered
          color_from_emission + (vec3.smul scat_pdf srec.attenuation * sample_color) / pdf_val

/-- Translation of `camera::ray_color_3` (camera.h, next-event estimation).
The hit test precedes the depth test; the direct-light recursive call uses
depth 0 and `includeLe = true`, the indirect call suppresses the next
vertex's emission (`includeLe = false`). -/
def ray_color_3 (background : vec3) (world lights : hittable) (rnd : ℕ → ℕ → ℚ)
    (depth : ℕ) (r : ray) (includeLe : Bool) : vec3 :=
  match world.hit r hit_interval with
  | none => background
  | some (rec', mat) =>
    let Le := if includeLe then mat.emitted r rec' rec'.u rec'.v rec'.p else ⟨0, 0, 0⟩
    if hd : depth = 0 then Le
    else
      match mat.scatter r rec' with
      | none => Le
      | some srec =>
        if srec.skip_pdf then
          srec.attenuation *
            ray_color_3 background world lights rnd (depth - 1) srec.skip_pdf_ray true
        else
          let light_ptr := hittable_pdf lights rec'.p
          let light_ray : ray := ⟨rec'.p, light_ptr.generate (rnd depth), r.tm⟩
          let brdf := vec3.smul (mat.scattering_pdf r rec' light_ray) srec.attenuation
          let pdf_light := light_ptr.value light_ray.dir
          let Ldir :=
            brdf * ray_color_3 background world lights rnd 0 light_ray true / pdf_light
          let bsdf_ray : ray := ⟨rec'.p, srec.pdf_ptr.generate (rnd depth), r.tm⟩
          let bsdf := vec3.smul (mat.scattering_pdf r rec' bsdf_ray) srec.attenuation
          let pdf_bsdf := srec.pdf_ptr.value bsdf_ray.dir
          let Lind :=
            bsdf * ray_color_3 background world lights rnd (depth - 1) bsdf_ray false / pdf_bsdf
          Le + Ldir + Lind
termination_by depth
decreasing_by
  all_goals omega

/-- Translation of `camera::ray_color_4` (camera.h, multiple importance
sampling): emission is scaled by the propagated `Leweight`; the direct and
indirect recursive calls receive the squared-pdf (power heuristic) weights
`weight_light` and `weight_bsdf` as the next vertex's `Leweight`; the C++
skip branch passes `true`, i.e. weight 1. -/
def ray_color_4 (background : vec3) (world lights : hittable) (rnd : ℕ → ℕ → ℚ)
    (depth : ℕ) (r : ray) (Leweight : ℚ) : vec3 :=
  match world.hit r hit_interval with
  | none => background
  | some (rec', mat) =>
    let Le := vec3.smul Leweight (mat.emitted r rec' rec'.u rec'.v rec'.p)
    if hd : depth = 0 then Le
    else
      match mat.scatter r rec' with
      | none => Le
      | some srec =>
        if srec.skip_pdf then
          srec.attenuation *
            ray_color_4 background world lights rnd (depth - 1) srec.skip_pdf_ray 1
        else
          let light_ptr := hittable_pdf lights rec'.p
          let light_ray : ray := ⟨rec'.p, light_ptr.generate (rnd depth), r.tm⟩
          let brdf := vec3.smul (mat.scattering_pdf r rec' light_ray) srec.attenuation
          let pdf_light := light_ptr.value light_ray.dir
          let pdf_light_bsdf := srec.pdf_ptr.value light_ray.dir
          let weight_light := pdf_light ^ 2 / (pdf_light ^ 2 + pdf_light_bsdf ^ 2)
          let Ldir :=
            brdf * ray_color_4 background world lights rnd 0 light_ray weight_light / pdf_light
          let dir := srec.pdf_ptr.generate (rnd depth)
          let bsdf_ray : ray := ⟨rec'.p, dir, r.tm⟩
          let bsdf := vec3.smul (mat.scattering_pdf r rec' bsdf_ray) srec.attenuation
          let pdf_bsdf := srec.pdf_ptr.value bsdf_ray.dir
          let pdf_bsdf_light := light_ptr.value bsdf_ray.dir
          let weight_bsdf := pdf_bsdf ^ 2 / (pdf_bsdf ^ 2 + pdf_bsdf_light ^ 2)
          let Lind :=
            bsdf * ray_color_4 background world lights rnd (depth - 1) bsdf_ray weight_bsdf
              / pdf_bsdf
          Le + Ldir + Lind
termination_by depth
decreasing_by
  all_goals omega

/-- Rejection loop of `phong_pdf::generate` (pdf.h). Each iteration draws
`phi` and `xi`, builds a candidate direction from the inverse-transform
sampled lobe angles through the orthonormal basis, and accepts it only when
its dot product with the reference normal `n` is strictly positive. The
trigonometric candidate construction is abstracted as the stream
`candidate : ℕ → vec3` (iteration index to the direction produced by that
iteration's draws); the accept/reject test is modelled exactly. `fuel`
bounds the unbounded C++ `while (true)`; `none` models non-return. -/
def phong_generate (n : vec3) (candidate : ℕ → vec3) : ℕ → ℕ → Option vec3
  | 0, _ => none
  | fuel + 1, i =>
    let direction := candidate i
    if vec3.dot direction n > 0 then some direction
    else phong_generate n candidate fuel (i + 1)

/-- Translation of `hittable_list::pdf_value` (hittable_list.h): accumulates
`weight * member.pdf_value` over the members, `weight = 1.0 / objects.size()`. -/
def hittable_list.pdf_value (objects : List hittable) (origin direction : vec3) : ℚ :=
  let weight := 1 / (objects.length : ℚ)
  objects.foldl (fun sum object => sum + weight * object.pdf_value origin direction) 0

/-- Modelled from the spec: `random_int(lo, hi)` lives in rtweekend.h, which is
not among the provided sources; spec §6 states the aggregate "picks a member
uniformly then delegates". A uniform integer in [lo, hi] is modelled from one
uniform draw `u ∈ [0,1)` as `lo + ⌊(hi + 1 - lo) * u⌋`. -/
def random_int (lo hi : ℤ) (u : ℚ) : ℤ := lo + ⌊((hi : ℚ) + 1 - (lo : ℚ)) * u⌋

/-- Translation of `hittable_list::random` (hittable_list.h): indexes
`objects[random_int(0, int_size - 1)]` and delegates to that member. The
vector indexing is modelled with `List.get?`, where `none` marks the
out-of-bounds access the C++ code would perform. -/
def hittable_list.random (objects : List hittable) (origin : vec3) (u : ℚ) : Option vec3 :=
  let int_size : ℤ := (objects.length : ℤ)
  match objects.get? (random_int 0 (int_size - 1) u).toNat with
  | some object => some (object.random origin)
  | none => none

/-- Field `sqrt_spp` computed by `camera::initialize`:
`int(std::sqrt(samples_per_pixel))`, i.e. the integer square root. -/
def sqrt_spp (samples_per_pixel : ℕ) : ℕ := Nat.sqrt samples_per_pixel

/-- Field `pixel_samples_scale` of `camera::initialize`: `1.0 / (sqrt_spp * sqrt_spp)`. -/
def pixel_samples_scale (samples_per_pixel : ℕ) : ℚ :=
  1 / ((sqrt_spp samples_per_pixel : ℚ) * (sqrt_spp samples_per_pixel : ℚ))

/-- Sub-pixel sample grid iterated by `camera::render` for one pixel: all pairs
`(s_i, s_j)` with `s_j` the outer loop and `s_i` the inner loop, both ranging
over `[0, sqrt_spp)`; one camera ray is generated per grid entry. -/
def pixel_sample_grid (samples_per_pixel : ℕ) : List (ℕ × ℕ) :=
  (List.range (sqrt_spp samples_per_pixel)).flatMap
    (fun s_j => (List.range (sqrt_spp samples_per_pixel)).map (fun s_i => (s_i, s_j)))

/-- Per-pixel accumulation of `camera::render`: the per-sample radiances are
summed over the stratified grid and the sum is scaled by
`pixel_samples_scale`. `radiance s_i s_j` abstracts the chosen variant's
`ray_color_*(get_ray(i, j, s_i, s_j), max_depth, world, lights)`. -/
def render_pixel (samples_per_pixel : ℕ) (radiance : ℕ → ℕ → vec3) : vec3 :=
  vec3.smul (pixel_samples_scale samples_per_pixel)
    ((pixel_sample_grid samples_per_pixel).foldl (fun acc s => acc + radiance s.1 s.2) 0)

/-- Power heuristic exactly as the spec words it (§4.2 and glossary):
`weight = pdf_used^2 / (pdf_used^2 + pdf_other^2)`. -/
def power_heuristic (pdf_used pdf_other : ℚ) : ℚ :=
  pdf_used ^ 2 / (pdf_used ^ 2 + pdf_other ^ 2)

/-! Concrete scenes and distributions used by counterexamples and witnesses. -/

/-- Hit record of the test scenes: hit point at the origin, normal +z. -/
def rec0 : hit_record := ⟨⟨0, 0, 0⟩, ⟨0, 0, 1⟩, 1, 0, 0, true⟩

/-- Material pdf of the test scenes: constant density 1, generator returning
the zero direction (a degenerate sample). -/
def pdf0 : pdf := ⟨fun _ => 1, fun _ => ⟨0, 0, 0⟩⟩

/-- Scatter record of the test scenes: white attenuation, pdf sampling mode. -/
def srec0 : scatter_record := ⟨⟨1, 1, 1⟩, pdf0, false, ⟨⟨0, 0, 0⟩, ⟨0, 0, 1⟩, 0⟩⟩

/-- Material of the test scenes: emission (5,5,5), always scatters `srec0`,
scattering density 1. -/
def mat0 : material := ⟨fun _ _ _ _ _ => ⟨5, 5, 5⟩, fun _ _ => some srec0, fun _ _ _ => 1⟩

/-- World whose every ray hits `rec0`/`mat0`; light density 1, light sampling
returning the zero direction. -/
def w0 : hittable := ⟨fun _ _ => some (rec0, mat0), fun _ _ => 1, fun _ => ⟨0, 0, 0⟩⟩

/-- World that nothing hits. -/
def w_empty : hittable := ⟨fun _ _ => none, fun _ _ => 0, fun _ => ⟨0, 0, 0⟩⟩

/-- World that agrees with `w_empty` on the canonical query interval but
differs on every other interval. -/
def w_off_interval : hittable :=
  ⟨fun _ iv => if iv = hit_interval then none else some (rec0, mat0),
    fun _ _ => 0, fun _ => ⟨0, 0, 0⟩⟩

/-- Random streams that always draw 0. -/
def rnd0 : ℕ → ℕ → ℚ := fun _ _ => 0

/-- Primary test ray. -/
def r0 : ray := ⟨⟨0, 0, -1⟩, ⟨0, 0, 1⟩, 0⟩

/-- Test pdf with density 3, generating +x. -/
def pdfA : pdf := ⟨fun _ => 3, fun _ => ⟨1, 0, 0⟩⟩

/-- Test pdf with density 5, generating +y. -/
def pdfB : pdf := ⟨fun _ => 5, fun _ => ⟨0, 1, 0⟩⟩

/-- Test light member with density 3, sampling +x. -/
def lightA : hittable := ⟨fun _ _ => none, fun _ _ => 3, fun _ => ⟨1, 0, 0⟩⟩

/-- Test light member with density 5, sampling +y. -/
def lightB : hittable := ⟨fun _ _ => none, fun _ _ => 5, fun _ => ⟨0, 1, 0⟩⟩

/-! Helper lemmas. -/

/-- Componentwise characterisation of vec3 addition. -/
theorem vec3.add_def (a b : vec3) : a + b = ⟨a.x + b.x, a.y + b.y, a.z + b.z⟩ := rfl

/-- Componentwise characterisation of vec3 multiplication. -/
theorem vec3.mul_def (a b : vec3) : a * b = ⟨a.x * b.x, a.y * b.y, a.z * b.z⟩ := rfl

/-- Componentwise characterisation of vec3 division by a scalar. -/
theorem vec3.div_def (a : vec3) (t : ℚ) : a / t = ⟨a.x / t, a.y / t, a.z / t⟩ := rfl

/-- Scaling the zero color gives zero. -/
theorem vec3.smul_zero_vec (t : ℚ) : vec3.smul t ⟨0, 0, 0⟩ = ⟨0, 0, 0⟩ := by
  simp [vec3.smul]

/-- Accumulating `w * f o` over a list from accumulator `a` yields `a` plus `w`
times the sum of the mapped values. -/
theorem foldl_weighted_sum (w : ℚ) (f : hittable → ℚ) (l : List hittable) (a : ℚ) :
    l.foldl (fun sum o => sum + w * f o) a = a + w * (l.map f).sum := by
  induction l generalizing a with
  | nil => simp
  | cons x xs ih => simp [ih, mul_add]; ring

/-- The spec-modelled `random_int 0 (n-1)` equals the floor of `n * u`. -/
theorem random_int_zero_len (n : ℕ) (u : ℚ) :
    random_int 0 ((n : ℤ) - 1) u = ⌊(n : ℚ) * u⌋ := by
  unfold random_int
  rw [zero_add]
  congr 1
  push_cast
  ring

/-- For a uniform draw `u ∈ [0,1)` and positive `n`, `⌊n * u⌋` lies in `[0, n)`. -/
theorem floor_len_mul_bounds (n : ℕ) (u : ℚ) (hn : 0 < n) (h0 : 0 ≤ u) (h1 : u < 1) :
    0 ≤ ⌊(n : ℚ) * u⌋ ∧ ⌊(n : ℚ) * u⌋ < (n : ℤ) := by
  have hnQ : (0 : ℚ) < (n : ℚ) := by exact_mod_cast hn
  constructor
  · exact Int.floor_nonneg.2 (by positivity)
  · apply Int.floor_lt.2
    calc (n : ℚ) * u < (n : ℚ) * 1 := by exact mul_lt_mul_of_pos_left h1 hnQ
    _ = ((n : ℤ) : ℚ) := by push_cast; ring

/-- C6: the mixture pdf's density at any direction is exactly
`0.5 * p0.value(d) + 0.5 * p1.value(d)`, and its generator, reading one
uniform [0,1) draw as an unbiased coin, defers to `p0` exactly on the draw
interval `[0, 1/2)` and to `p1` exactly on `[1/2, 1)`, two intervals of equal
length `1/2` (probability one half each). -/
theorem mixture_pdf_value_and_coin (p0 p1 : pdf) (d : vec3) (u : ℕ → ℚ) :
    (mixture_pdf p0 p1).value d = 1/2 * p0.value d + 1/2 * p1.value d
    ∧ (u 0 < 1/2 → (mixture_pdf p0 p1).generate u = p0.generate (tailStream u))
    ∧ (1/2 ≤ u 0 → (mixture_pdf p0 p1).generate u = p1.generate (tailStream u))
    ∧ {c : ℚ | (0 ≤ c ∧ c < 1) ∧ c < 1/2} = Set.Ico (0 : ℚ) (1/2)
    ∧ {c : ℚ | (0 ≤ c ∧ c < 1) ∧ ¬ c < 1/2} = Set.Ico (1/2 : ℚ) 1
    ∧ (1/2 : ℚ) - 0 = 1/2 ∧ (1 : ℚ) - 1/2 = 1/2 := by
  refine ⟨rfl, ?_, ?_, ?_, ?_, by norm_num, by norm_num⟩
  · intro h
    simp only [mixture_pdf]
    rw [if_pos h]
  · intro h
    simp only [mixture_pdf]
    rw [if_neg (not_lt.mpr h)]
  · ext c
    simp only [Set.mem_setOf_eq, Set.mem_Ico]
    constructor
    · rintro ⟨⟨hc0, _⟩, hc⟩
      exact ⟨hc0, hc⟩
    · rintro ⟨hc0, hc⟩
      exact ⟨⟨hc0, by linarith⟩, hc⟩
  · ext c
    simp only [Set.mem_setOf_eq, Set.mem_Ico, not_lt]
    constructor
    · rintro ⟨⟨_, hc1⟩, hc⟩
      exact ⟨hc, hc1⟩
    · rintro ⟨hc, hc1⟩
      exact ⟨⟨by linarith, hc1⟩, hc⟩

/-- C6 witness: with the concrete pdfs `pdfA`, `pdfB` and the all-zero draw
stream, the coin draw 0 lies below 1/2, so `generate` defers to `pdfA`. -/
theorem mixture_pdf_value_and_coin_witness :
    (mixture_pdf pdfA pdfB).generate (fun _ => 0) = pdfA.generate (tailStream fun _ => 0) :=
  (mixture_pdf_value_and_coin pdfA pdfB ⟨1, 2, 3⟩ (fun _ => 0)).2.1 (by norm_num)

/-- C8: whenever the phong rejection loop returns a direction, that direction
has strictly positive dot product with the reference normal `n`; a candidate
on the wrong side is rejected and the loop resamples. -/
theorem phong_generate_positive_dot (n : vec3) (candidate : ℕ → vec3)
    (fuel i : ℕ) (d : vec3) (h : phong_generate n candidate fuel i = some d) :
    vec3.dot d n > 0 := by
  induction fuel generalizing i with
  | zero => simp [phong_generate] at h
  | succ k ih =>
    simp only [phong_generate] at h
    split at h
    · cases h
      assumption
    · exact ih (i + 1) h

/-- C8 witness: a candidate stream whose first candidate lies on the wrong
side of the normal; the loop rejects it and returns the second candidate,
whose dot product with the normal is positive. -/
theorem phong_generate_positive_dot_witness :
    phong_generate ⟨0, 0, 1⟩ (fun j => if j = 0 then ⟨0, 0, -1⟩ else ⟨0, 0, 1⟩) 2 0
        = some ⟨0, 0, 1⟩
    ∧ vec3.dot ⟨0, 0, 1⟩ ⟨0, 0, 1⟩ > 0 := by
  have he : phong_generate ⟨0, 0, 1⟩ (fun j => if j = 0 then ⟨0, 0, -1⟩ else ⟨0, 0, 1⟩) 2 0
      = some ⟨0, 0, 1⟩ := by
    norm_num [phong_generate, vec3.dot]
  exact ⟨he, phong_generate_positive_dot ⟨0, 0, 1⟩ _ 2 0 ⟨0, 0, 1⟩ he⟩

/-- C2 (amended): per pixel the render loop generates s² camera rays with
s = ⌊√samples_per_pixel⌋ — equal to samples_per_pixel only when it is a
perfect square — and the stored pixel color is the sum of the per-sample
radiances scaled by 1/s², i.e. the unweighted mean over the actual sample
count, for any per-sample radiance function (hence any integrator variant). -/
theorem render_pixel_stratified_mean (spp : ℕ) (radiance : ℕ → ℕ → vec3) :
    (pixel_sample_grid spp).length = sqrt_spp spp * sqrt_spp spp
    ∧ render_pixel spp radiance =
        vec3.smul (1 / ((pixel_sample_grid spp).length : ℚ))
          ((pixel_sample_grid spp).foldl (fun acc s => acc + radiance s.1 s.2) 0) := by
  have hlen : (pixel_sample_grid spp).length = sqrt_spp spp * sqrt_spp spp := by
    simp only [pixel_sample_grid, List.length_flatMap, Function.comp_def, List.length_map,
      List.length_range, List.map_const', List.sum_replicate, smul_eq_mul]
  refine ⟨hlen, ?_⟩
  unfold render_pixel pixel_samples_scale
  rw [hlen, Nat.cast_mul]

/-- C2 counterexample: with samples_per_pixel = 10 the render loop generates
only 9 = ⌊√10⌋² camera rays for the pixel, not 10. -/
theorem pixel_sample_count_ten_is_nine :
    (pixel_sample_grid 10).length = 9 ∧ (9 : ℕ) ≠ 10 := by
  have h : Nat.sqrt 10 = 3 := (Nat.eq_sqrt.2 (by norm_num)).symm
  have hg : pixel_sample_grid 10
      = (List.range 3).flatMap (fun s_j => (List.range 3).map fun s_i => (s_i, s_j)) := by
    unfold pixel_sample_grid sqrt_spp
    rw [h]
  rw [hg]
  exact ⟨rfl, by norm_num⟩

/-- C7: for a non-empty collection of N members, `pdf_value` equals the
unweighted (1/N-weighted) average of member densities; `random`, reading one
uniform [0,1) draw, selects the member of index ⌊N·u⌋ — in bounds, each index
i chosen exactly on the sub-interval [i/N, (i+1)/N) of length 1/N, i.e.
uniformly — and delegates to that member's `random`. -/
theorem hittable_list_uniform_mixture
    (objects : List hittable) (origin direction : vec3) (u : ℚ)
    (hne : objects ≠ []) (h0 : 0 ≤ u) (h1 : u < 1) :
    hittable_list.pdf_value objects origin direction =
        1 / (objects.length : ℚ) * ((objects.map fun o => o.pdf_value origin direction).sum)
    ∧ (∃ hm : (⌊(objects.length : ℚ) * u⌋).toNat < objects.length,
        hittable_list.random objects origin u =
          some ((objects.get ⟨(⌊(objects.length : ℚ) * u⌋).toNat, hm⟩).random origin))
    ∧ (∀ i : ℕ, i < objects.length →
        ((⌊(objects.length : ℚ) * u⌋).toNat = i ↔
          (i : ℚ) / (objects.length : ℚ) ≤ u ∧ u < ((i : ℚ) + 1) / (objects.length : ℚ)))
    ∧ (∀ i : ℕ,
        ((i : ℚ) + 1) / (objects.length : ℚ) - (i : ℚ) / (objects.length : ℚ)
          = 1 / (objects.length : ℚ)) := by
  have hlen : 0 < objects.length := List.length_pos.mpr hne
  have hlenQ : (0 : ℚ) < (objects.length : ℚ) := by exact_mod_cast hlen
  obtain ⟨hfl0, hfllt⟩ := floor_len_mul_bounds objects.length u hlen h0 h1
  have hidx : (⌊(objects.length : ℚ) * u⌋).toNat < objects.length := by omega
  refine ⟨?_, ⟨hidx, ?_⟩, ?_, ?_⟩
  · unfold hittable_list.pdf_value
    simpa using
      foldl_weighted_sum (1 / (objects.length : ℚ))
        (fun o => o.pdf_value origin direction) objects 0
  · unfold hittable_list.random
    dsimp only
    rw [random_int_zero_len, List.get?_eq_get hidx]
  · intro i hi
    have htn : ((⌊(objects.length : ℚ) * u⌋).toNat = i) ↔
        ⌊(objects.length : ℚ) * u⌋ = (i : ℤ) := by omega
    rw [htn, Int.floor_eq_iff, div_le_iff₀ hlenQ, lt_div_iff₀ hlenQ,
      mul_comm ((objects.length : ℚ)) u]
    push_cast
    tauto
  · intro i
    have hne0 : (objects.length : ℚ) ≠ 0 := ne_of_gt hlenQ
    field_simp

/-- C7 witness: a two-member collection; the densities average to
(1/2)(3+5) = 4, and the draw u = 1/2 selects the second member (index
⌊2·(1/2)⌋ = 1) whose sampling routine returns (0,1,0). -/
theorem hittable_list_uniform_mixture_witness :
    hittable_list.pdf_value [lightA, lightB] ⟨0, 0, 0⟩ ⟨0, 0, 1⟩ = 4
    ∧ hittable_list.random [lightA, lightB] ⟨0, 0, 0⟩ (1/2) = some ⟨0, 1, 0⟩ := by
  have h := hittable_list_uniform_mixture [lightA, lightB] ⟨0, 0, 0⟩ ⟨0, 0, 1⟩ (1/2)
    (by simp) (by norm_num) (by norm_num)
  have hfl : ⌊(([lightA, lightB].length : ℚ)) * (1/2)⌋ = 1 := by norm_num
  constructor
  · rw [h.1]
    norm_num [lightA, lightB]
  · obtain ⟨hm, heq⟩ := h.2.1
    rw [heq]
    simp only [hfl]
    rfl

/-- C10: with the spec-modelled uniform `random_int`, a non-empty collection
gives a nonzero divisor N for the per-member weight 1/N and an in-bounds
member index for `random`, while on the empty collection the weight's divisor
is zero (division by zero) and `random`'s member access is out of bounds
(modelled as `none`). -/
theorem hittable_list_nonempty_safety
    (objects : List hittable) (origin : vec3) (u : ℚ) (h0 : 0 ≤ u) (h1 : u < 1) :
    (objects ≠ [] →
        (objects.length : ℚ) ≠ 0
        ∧ 0 ≤ random_int 0 ((objects.length : ℤ) - 1) u
        ∧ (random_int 0 ((objects.length : ℤ) - 1) u).toNat < objects.length
        ∧ (hittable_list.random objects origin u).isSome = true)
    ∧ (objects = [] →
        (objects.length : ℚ) = 0
        ∧ hittable_list.random objects origin u = none) := by
  constructor
  · intro hne
    have hlen : 0 < objects.length := List.length_pos.mpr hne
    obtain ⟨hfl0, hfllt⟩ := floor_len_mul_bounds objects.length u hlen h0 h1
    have hri := random_int_zero_len objects.length u
    refine ⟨by positivity, by rw [hri]; exact hfl0, by rw [hri]; omega, ?_⟩
    unfold hittable_list.random
    dsimp only
    rw [hri, List.get?_eq_get (by omega : (⌊(objects.length : ℚ) * u⌋).toNat < objects.length)]
    rfl
  · rintro rfl
    exact ⟨by simp, rfl⟩

/-- C10 witness: a singleton collection with the draw u = 1/2 has nonzero
weight divisor and an in-bounds random member access. -/
theorem hittable_list_nonempty_safety_witness :
    (hittable_list.random [lightA] ⟨0, 0, 0⟩ (1/2)).isSome = true :=
  ((hittable_list_nonempty_safety [lightA] ⟨0, 0, 0⟩ (1/2) (by norm_num)
    (by norm_num)).1 (List.cons_ne_nil _ _)).2.2.2

/-- On a miss, ray_color_3 returns the background at every depth. -/
theorem ray_color_3_miss (background : vec3) (world lights : hittable)
    (rnd : ℕ → ℕ → ℚ) (depth : ℕ) (r : ray) (inc : Bool)
    (h : world.hit r hit_interval = none) :
    ray_color_3 background world lights rnd depth r inc = background := by
  rw [ray_color_3, h]

/-- On a miss, ray_color_4 returns the background at every depth. -/
theorem ray_color_4_miss (background : vec3) (world lights : hittable)
    (rnd : ℕ → ℕ → ℚ) (depth : ℕ) (r : ray) (lw : ℚ)
    (h : world.hit r hit_interval = none) :
    ray_color_4 background world lights rnd depth r lw = background := by
  rw [ray_color_4, h]

/-- At depth 0 on a hit, ray_color_3 returns the emission gated by includeLe. -/
theorem ray_color_3_hit_zero (background : vec3) (world lights : hittable)
    (rnd : ℕ → ℕ → ℚ) (r : ray) (inc : Bool) (rec' : hit_record) (mat : material)
    (h : world.hit r hit_interval = some (rec', mat)) :
    ray_color_3 background world lights rnd 0 r inc =
      (if inc then mat.emitted r rec' rec'.u rec'.v rec'.p else ⟨0, 0, 0⟩) := by
  rw [ray_color_3, h]
  rfl

/-- At depth 0 on a hit, ray_color_4 returns the Leweight-scaled emission. -/
theorem ray_color_4_hit_zero (background : vec3) (world lights : hittable)
    (rnd : ℕ → ℕ → ℚ) (r : ray) (lw : ℚ) (rec' : hit_record) (mat : material)
    (h : world.hit r hit_interval = some (rec', mat)) :
    ray_color_4 background world lights rnd 0 r lw =
      vec3.smul lw (mat.emitted r rec' rec'.u rec'.v rec'.p) := by
  rw [ray_color_4, h]
  rfl

/-- C3 (amended): a ray that misses every object yields the configured
background color in ray_color_3 and ray_color_4 at every depth, and in
ray_color_1 and ray_color_2 at every depth ≥ 1; at depth 0, ray_color_1 and
ray_color_2 return black without consulting the scene, not the background. -/
theorem integrators_miss_return_background
    (background : vec3) (world lights : hittable) (rnd : ℕ → ℕ → ℚ)
    (depth : ℕ) (r : ray) (inc : Bool) (lw : ℚ)
    (hmiss : world.hit r hit_interval = none) :
    ray_color_1 background world lights rnd (depth + 1) r = background
    ∧ ray_color_2 background world lights rnd (depth + 1) r = background
    ∧ ray_color_3 background world lights rnd depth r inc = background
    ∧ ray_color_4 background world lights rnd depth r lw = background
    ∧ ray_color_1 background world lights rnd 0 r = ⟨0, 0, 0⟩
    ∧ ray_color_2 background world lights rnd 0 r = ⟨0, 0, 0⟩ := by
  refine ⟨?_, ?_, ray_color_3_miss _ _ _ _ _ _ _ hmiss,
    ray_color_4_miss _ _ _ _ _ _ _ hmiss, rfl, rfl⟩
  · simp only [ray_color_1]
    rw [hmiss]
  · simp only [ray_color_2]
    rw [hmiss]

/-- C3 counterexample: at depth 0 with a white background, ray_color_1 on a
ray that hits nothing returns black, not the background color. -/
theorem ray_color_1_miss_depth_zero_black :
    ray_color_1 ⟨1, 1, 1⟩ w_empty w_empty rnd0 0 r0 = ⟨0, 0, 0⟩
    ∧ w_empty.hit r0 hit_interval = none
    ∧ (⟨0, 0, 0⟩ : vec3) ≠ ⟨1, 1, 1⟩ := by
  refine ⟨rfl, rfl, ?_⟩
  intro h
  cases h

/-- C3 witness: in a scene where the primary ray misses, every variant at a
positive depth (and variants 3 and 4 at every depth) returns the background. -/
theorem integrators_miss_return_background_witness :
    ray_color_1 ⟨1, 1, 1⟩ w_empty w_empty rnd0 3 r0 = ⟨1, 1, 1⟩
    ∧ ray_color_3 ⟨1, 1, 1⟩ w_empty w_empty rnd0 0 r0 true = ⟨1, 1, 1⟩ :=
  ⟨(integrators_miss_return_background ⟨1, 1, 1⟩ w_empty w_empty rnd0 2 r0 true 1 rfl).1,
    (integrators_miss_return_background ⟨1, 1, 1⟩ w_empty w_empty rnd0 0 r0 true 1 rfl).2.2.1⟩

/-- C5: at depth 0 no variant recurses: ray_color_1 and ray_color_2 return
black unconditionally; on a hit, ray_color_3 returns the emission gated by
includeLe and ray_color_4 the Leweight-scaled emission; in particular, on a
hit against a non-emissive material (emission zero) every variant returns
exactly zero. -/
theorem integrators_depth_zero_emission_only
    (background : vec3) (world lights : hittable) (rnd : ℕ → ℕ → ℚ) (r : ray)
    (inc : Bool) (lw : ℚ) (rec' : hit_record) (mat : material)
    (hhit : world.hit r hit_interval = some (rec', mat)) :
    ray_color_1 background world lights rnd 0 r = ⟨0, 0, 0⟩
    ∧ ray_color_2 background world lights rnd 0 r = ⟨0, 0, 0⟩
    ∧ ray_color_3 background world lights rnd 0 r inc =
        (if inc then mat.emitted r rec' rec'.u rec'.v rec'.p else ⟨0, 0, 0⟩)
    ∧ ray_color_4 background world lights rnd 0 r lw =
        vec3.smul lw (mat.emitted r rec' rec'.u rec'.v rec'.p)
    ∧ (mat.emitted r rec' rec'.u rec'.v rec'.p = ⟨0, 0, 0⟩ →
        ray_color_3 background world lights rnd 0 r inc = ⟨0, 0, 0⟩
        ∧ ray_color_4 background world lights rnd 0 r lw = ⟨0, 0, 0⟩) := by
  have h3 := ray_color_3_hit_zero background world lights rnd r inc rec' mat hhit
  have h4 := ray_color_4_hit_zero background world lights rnd r lw rec' mat hhit
  refine ⟨rfl, rfl, h3, h4, ?_⟩
  intro hz
  rw [hz] at h3 h4
  rw [vec3.smul_zero_vec] at h4
  refine ⟨?_, h4⟩
  rw [h3]
  cases inc <;> rfl

/-- C5 witness: in the concrete always-hit scene, at depth 0, variant 1
returns black and variant 4 returns the Leweight-scaled emission. -/
theorem integrators_depth_zero_emission_only_witness :
    ray_color_1 ⟨0, 0, 0⟩ w0 w0 rnd0 0 r0 = ⟨0, 0, 0⟩
    ∧ ray_color_4 ⟨0, 0, 0⟩ w0 w0 rnd0 0 r0 3 =
        vec3.smul 3 (mat0.emitted r0 rec0 rec0.u rec0.v rec0.p) :=
  ⟨(integrators_depth_zero_emission_only ⟨0, 0, 0⟩ w0 w0 rnd0 r0 true 3 rec0 mat0 rfl).1,
    (integrators_depth_zero_emission_only ⟨0, 0, 0⟩ w0 w0 rnd0 r0 true 3 rec0 mat0 rfl).2.2.2.1⟩

/-- C1 (amended): only ray_color_1 guards against a degenerate sampled
direction: when the material scatters with a pdf (skip_pdf false) and the
generated direction's squared length is below 1/10000, ray_color_1 returns
exactly the emission accumulated at the hit, with no recursion and no
division by the near-zero density; variants 2–4 contain no such guard (see
the counterexample on ray_color_2). -/
theorem ray_color_1_degenerate_direction_guard
    (background : vec3) (world lights : hittable) (rnd : ℕ → ℕ → ℚ)
    (d : ℕ) (r : ray) (rec' : hit_record) (mat : material) (srec : scatter_record)
    (hhit : world.hit r hit_interval = some (rec', mat))
    (hsc : mat.scatter r rec' = some srec)
    (hskip : srec.skip_pdf = false)
    (hdeg : (srec.pdf_ptr.generate (rnd (d + 1))).length_squared < 1/10000) :
    ray_color_1 background world lights rnd (d + 1) r =
      mat.emitted r rec' rec'.u rec'.v rec'.p := by
  simp [ray_color_1, hhit, hsc, hskip, hdeg]
  intro hcon
  rw [one_div] at hdeg
  exact absurd hdeg (not_lt.mpr hcon)

/-- C1 witness: in the concrete scene, the material pdf generates the zero
direction (squared length 0 < 1/10000), so ray_color_1 at depth 1 returns
only the emission (5,5,5). -/
theorem ray_color_1_degenerate_direction_guard_witness :
    ray_color_1 ⟨0, 0, 0⟩ w0 w0 rnd0 1 r0 = mat0.emitted r0 rec0 rec0.u rec0.v rec0.p :=
  ray_color_1_degenerate_direction_guard ⟨0, 0, 0⟩ w0 w0 rnd0 0 r0 rec0 mat0 srec0
    rfl rfl rfl
    (by norm_num [srec0, pdf0, rnd0, vec3.length_squared])

/-- C1 counterexample: in ray_color_2 the generated mixture direction is the
zero vector (squared length 0, below the 1/10000 threshold) with skip_pdf
false, yet the call at depth 2 returns (10,10,10), the emission (5,5,5) plus
a recursive scatter contribution — not the emission term alone. -/
theorem ray_color_2_degenerate_direction_not_guarded :
    ((mixture_pdf (hittable_pdf w0 rec0.p) srec0.pdf_ptr).generate
        (rnd0 2)).length_squared < 1/10000
    ∧ mat0.scatter r0 rec0 = some srec0
    ∧ srec0.skip_pdf = false
    ∧ ray_color_2 ⟨0, 0, 0⟩ w0 w0 rnd0 2 r0 = ⟨10, 10, 10⟩
    ∧ (⟨10, 10, 10⟩ : vec3) ≠ mat0.emitted r0 rec0 rec0.u rec0.v rec0.p := by
  refine ⟨?_, rfl, rfl, ?_, ?_⟩
  · norm_num [mixture_pdf, hittable_pdf, srec0, pdf0, rnd0, w0, tailStream,
      vec3.length_squared]
  · norm_num [ray_color_2, w0, mat0, srec0, rec0, pdf0, rnd0, r0, mixture_pdf,
      hittable_pdf, tailStream, vec3.smul, vec3.add_def, vec3.mul_def, vec3.div_def,
      vec3.length_squared]
  · intro h
    have hx := congrArg vec3.x h
    norm_num [mat0] at hx

/-- C4: at an interior vertex (depth ≠ 0, pdf scatter), ray_color_4 combines
the light-sampled (direct) and bsdf-sampled (indirect) contributions with
the power heuristic: each recursive call receives, as the Leweight scaling
the emission collected at that path's next vertex, the weight
`power_heuristic pdf_used pdf_other`, where pdf_used is the density of the
technique that drew the direction and pdf_other is the other technique's
density at the same direction; and at depth 0 (the direct call) a hit indeed
returns exactly the Leweight-scaled emission of the next vertex. -/
theorem ray_color_4_power_heuristic_weights
    (background : vec3) (world lights : hittable) (rnd : ℕ → ℕ → ℚ)
    (depth : ℕ) (r : ray) (Leweight : ℚ)
    (rec' : hit_record) (mat : material) (srec : scatter_record)
    (hd : depth ≠ 0)
    (hhit : world.hit r hit_interval = some (rec', mat))
    (hsc : mat.scatter r rec' = some srec)
    (hskip : srec.skip_pdf = false) :
    (ray_color_4 background world lights rnd depth r Leweight =
        vec3.smul Leweight (mat.emitted r rec' rec'.u rec'.v rec'.p)
        + vec3.smul (mat.scattering_pdf r rec' ⟨rec'.p, lights.random rec'.p, r.tm⟩)
            srec.attenuation *
            ray_color_4 background world lights rnd 0 ⟨rec'.p, lights.random rec'.p, r.tm⟩
              (power_heuristic (lights.pdf_value rec'.p (lights.random rec'.p))
                (srec.pdf_ptr.value (lights.random rec'.p)))
            / lights.pdf_value rec'.p (lights.random rec'.p)
        + vec3.smul
            (mat.scattering_pdf r rec' ⟨rec'.p, srec.pdf_ptr.generate (rnd depth), r.tm⟩)
            srec.attenuation *
            ray_color_4 background world lights rnd (depth - 1)
              ⟨rec'.p, srec.pdf_ptr.generate (rnd depth), r.tm⟩
              (power_heuristic (srec.pdf_ptr.value (srec.pdf_ptr.generate (rnd depth)))
                (lights.pdf_value rec'.p (srec.pdf_ptr.generate (rnd depth))))
            / srec.pdf_ptr.value (srec.pdf_ptr.generate (rnd depth)))
    ∧ (∀ (lw : ℚ) (next_r : ray) (rec2 : hit_record) (mat2 : material),
        world.hit next_r hit_interval = some (rec2, mat2) →
        ray_color_4 background world lights rnd 0 next_r lw =
          vec3.smul lw (mat2.emitted next_r rec2 rec2.u rec2.v rec2.p)) := by
  constructor
  · rw [ray_color_4, hhit]
    simp only [hsc, hskip, dif_neg hd, Bool.false_eq_true, if_false, hittable_pdf,
      power_heuristic]
  · intro lw next_r rec2 mat2 h2
    exact ray_color_4_hit_zero background world lights rnd next_r lw rec2 mat2 h2

/-- C4 witness: in the concrete always-hit scene, the depth-0 (direct light)
call of ray_color_4 returns the Leweight-scaled emission of the hit vertex. -/
theorem ray_color_4_power_heuristic_weights_witness :
    ray_color_4 ⟨0, 0, 0⟩ w0 w0 rnd0 0 r0 7 =
      vec3.smul 7 (mat0.emitted r0 rec0 rec0.u rec0.v rec0.p) :=
  (ray_color_4_power_heuristic_weights ⟨0, 0, 0⟩ w0 w0 rnd0 1 r0 1 rec0 mat0 srec0
    (by norm_num) rfl rfl rfl).2 7 r0 rec0 mat0 rfl

/-- ray_color_1 only observes the world through hit queries at `hit_interval`:
two worlds agreeing on those queries give identical radiance at every depth. -/
theorem ray_color_1_world_agree (background : vec3) (w w2 lights : hittable)
    (rnd : ℕ → ℕ → ℚ)
    (hagree : ∀ rr : ray, w.hit rr hit_interval = w2.hit rr hit_interval) :
    ∀ (depth : ℕ) (r : ray),
      ray_color_1 background w lights rnd depth r
        = ray_color_1 background w2 lights rnd depth r := by
  intro depth
  induction depth with
  | zero =>
    intro r
    rfl
  | succ d ih =>
    intro r
    simp only [ray_color_1, hagree, ih]

/-- ray_color_2 only observes the world through hit queries at `hit_interval`. -/
theorem ray_color_2_world_agree (background : vec3) (w w2 lights : hittable)
    (rnd : ℕ → ℕ → ℚ)
    (hagree : ∀ rr : ray, w.hit rr hit_interval = w2.hit rr hit_interval) :
    ∀ (depth : ℕ) (r : ray),
      ray_color_2 background w lights rnd depth r
        = ray_color_2 background w2 lights rnd depth r := by
  intro depth
  induction depth with
  | zero =>
    intro r
    rfl
  | succ d ih =>
    intro r
    simp only [ray_color_2, hagree, ih]

/-- ray_color_3 only observes the world through hit queries at `hit_interval`. -/
theorem ray_color_3_world_agree (background : vec3) (w w2 lights : hittable)
    (rnd : ℕ → ℕ → ℚ)
    (hagree : ∀ rr : ray, w.hit rr hit_interval = w2.hit rr hit_interval) :
    ∀ (depth : ℕ) (r : ray) (inc : Bool),
      ray_color_3 background w lights rnd depth r inc
        = ray_color_3 background w2 lights rnd depth r inc := by
  intro depth
  induction depth using Nat.strong_induction_on with
  | _ n ih =>
    intro r inc
    by_cases hn : n = 0
    · subst hn
      cases hE : w2.hit r hit_interval with
      | none =>
        rw [ray_color_3_miss _ _ _ _ _ _ _ ((hagree r).trans hE),
          ray_color_3_miss _ _ _ _ _ _ _ hE]
      | some rm =>
        obtain ⟨rec', mat⟩ := rm
        rw [ray_color_3_hit_zero _ _ _ _ _ _ _ _ ((hagree r).trans hE),
          ray_color_3_hit_zero _ _ _ _ _ _ _ _ hE]
    · conv_lhs => rw [ray_color_3]
      conv_rhs => rw [ray_color_3]
      rw [hagree r]
      have ih0 := ih 0 (Nat.pos_of_ne_zero hn)
      have ih1 := ih (n - 1) (by omega)
      simp only [ih0, ih1]

/-- ray_color_4 only observes the world through hit queries at `hit_interval`. -/
theorem ray_color_4_world_agree (background : vec3) (w w2 lights : hittable)
    (rnd : ℕ → ℕ → ℚ)
    (hagree : ∀ rr : ray, w.hit rr hit_interval = w2.hit rr hit_interval) :
    ∀ (depth : ℕ) (r : ray) (lw : ℚ),
      ray_color_4 background w lights rnd depth r lw
        = ray_color_4 background w2 lights rnd depth r lw := by
  intro depth
  induction depth using Nat.strong_induction_on with
  | _ n ih =>
    intro r lw
    by_cases hn : n = 0
    · subst hn
      cases hE : w2.hit r hit_interval with
      | none =>
        rw [ray_color_4_miss _ _ _ _ _ _ _ ((hagree r).trans hE),
          ray_color_4_miss _ _ _ _ _ _ _ hE]
      | some rm =>
        obtain ⟨rec', mat⟩ := rm
        rw [ray_color_4_hit_zero _ _ _ _ _ _ _ _ ((hagree r).trans hE),
          ray_color_4_hit_zero _ _ _ _ _ _ _ _ hE]
    · conv_lhs => rw [ray_color_4]
      conv_rhs => rw [ray_color_4]
      rw [hagree r]
      have ih0 := ih 0 (Nat.pos_of_ne_zero hn)
      have ih1 := ih (n - 1) (by omega)
      simp only [ih0, ih1]

/-- C9: every scene intersection query issued by any integrator variant, at
any depth of the recursion, uses the parametric interval [0.001, ∞): the
canonical query interval is (1/1000, ⊤), and two worlds whose hit routines
agree on exactly that interval (they may differ arbitrarily on every other
interval, e.g. for t < 0.001) produce identical radiance in all four
variants at all depths. -/
theorem integrators_hit_interval_only
    (background : vec3) (w w2 lights : hittable) (rnd : ℕ → ℕ → ℚ)
    (hagree : ∀ rr : ray, w.hit rr hit_interval = w2.hit rr hit_interval) :
    hit_interval = ⟨1/1000, ⊤⟩
    ∧ ∀ (depth : ℕ) (r : ray) (inc : Bool) (lw : ℚ),
        ray_color_1 background w lights rnd depth r
            = ray_color_1 background w2 lights rnd depth r
        ∧ ray_color_2 background w lights rnd depth r
            = ray_color_2 background w2 lights rnd depth r
        ∧ ray_color_3 background w lights rnd depth r inc
            = ray_color_3 background w2 lights rnd depth r inc
        ∧ ray_color_4 background w lights rnd depth r lw
            = ray_color_4 background w2 lights rnd depth r lw :=
  ⟨rfl, fun depth r inc lw =>
    ⟨ray_color_1_world_agree background w w2 lights rnd hagree depth r,
      ray_color_2_world_agree background w w2 lights rnd hagree depth r,
      ray_color_3_world_agree background w w2 lights rnd hagree depth r inc,
      ray_color_4_world_agree background w w2 lights rnd hagree depth r lw⟩⟩

/-- C9 witness: `w_off_interval` differs from `w_empty` on every interval
except the canonical one, yet the integrators cannot tell them apart. -/
theorem integrators_hit_interval_only_witness :
    ray_color_4 ⟨2, 2, 2⟩ w_empty w0 rnd0 2 r0 (1/2)
      = ray_color_4 ⟨2, 2, 2⟩ w_off_interval w0 rnd0 2 r0 (1/2) :=
  ((integrators_hit_interval_only ⟨2, 2, 2⟩ w_empty w_off_interval w0 rnd0
    (fun rr => by simp [w_empty, w_off_interval])).2 2 r0 true (1/2)).2.2.2
